import Mathlib

/-!
Verification development for the zip_files backend (goerz/zip_files).

The Python backend is shallowly embedded: strings are modelled as Lean
strings (lists of characters), the filesystem as an inductive forest,
fallible operations as Except values, and the regular expressions produced
by the gitignore translator are compiled into a small regex AST and matched
with a Brzozowski-derivative matcher.  All definitions follow
src/zip_files/backend.py and src/zip_files/zip_folder.py; the few places
where Python standard-library behaviour is modelled (str.strip, re.escape,
str.replace, re.findall for the fixed patterns used by the translator,
pathlib.PurePath.match, fnmatch, str.splitlines, PurePath.stem) are noted
at the corresponding definition.
-/

deriving instance DecidableEq for Except

namespace ZipFilesModel

/-! ### Python string primitives -/

/-- The ASCII whitespace characters stripped by Python str.strip(). -/
def pyWhitespace : List Char := [' ', '\t', '\n', '\r', '\x0b', '\x0c']

/-- Python str.strip(): remove leading and trailing whitespace. -/
def pyStrip (s : String) : String :=
  String.mk
    (((s.data.dropWhile pyWhitespace.contains).reverse.dropWhile
        pyWhitespace.contains).reverse)

/-- The characters escaped by Python re.escape (CPython 3.7+ special set). -/
def reSpecialChars : List Char :=
  ['(', ')', '[', ']', '\x7b', '\x7d', '?', '*', '+', '-', '|', '^', '$',
   '\\', '.', '&', '~', '#', ' ', '\t', '\n', '\r', '\x0b', '\x0c']

/-- Python re.escape: backslash-escape every special character. -/
def reEscape (s : String) : String :=
  String.mk
    (s.data.foldr
      (fun c acc => (if reSpecialChars.contains c then ['\\', c] else [c]) ++ acc)
      [])

/-- Test whether the character list `s` ends with `suf`. -/
def endsWithL (s suf : List Char) : Bool :=
  suf.reverse.isPrefixOf s.reverse

/-- Test whether the string `s` ends with `suf` (Python str.endswith). -/
def sEndsWith (s suf : String) : Bool :=
  endsWithL s.data suf.data

/-- Python str.replace for a non-empty needle: replace every
non-overlapping occurrence of `lit` in `hay` by `repl`, scanning left to
right.  (For an empty `lit` the Python semantics is never exercised by the
program; here an empty needle leaves `hay` unchanged.) -/
def replaceLAux (lit repl : List Char) : Nat → List Char → List Char
  | 0, hay => hay
  | _ + 1, [] => []
  | f + 1, c :: rest =>
    if lit ≠ [] ∧ lit.isPrefixOf (c :: rest) then
      repl ++ replaceLAux lit repl f (rest.drop (lit.length - 1))
    else
      c :: replaceLAux lit repl f rest

/-- Python str.replace entry point: the fuel equals the length of the
haystack, which every recursive step strictly decreases, so the
zero-fuel branch is never reached. -/
def replaceL (lit repl hay : List Char) : List Char :=
  replaceLAux lit repl hay.length hay

/-- Python re.findall for a regex that is a literal string: the list of
non-overlapping occurrences of `lit` in `hay`, scanned left to right. -/
def findallLitAux (lit : List Char) : Nat → List Char → List (List Char)
  | 0, _ => []
  | _ + 1, [] => []
  | f + 1, c :: rest =>
    if lit ≠ [] ∧ lit.isPrefixOf (c :: rest) then
      lit :: findallLitAux lit f (rest.drop (lit.length - 1))
    else
      findallLitAux lit f rest

/-- Entry point for the literal findall; the fuel equals the length of
the haystack, which every recursive step strictly decreases. -/
def findallLit (lit hay : List Char) : List (List Char) :=
  findallLitAux lit hay.length hay

/-- Scan up to (and including) the first right bracket, returning the
content before it and the remainder after it. -/
def takeUntilRB : List Char → Option (List Char × List Char)
  | [] => none
  | c :: r =>
    if c = ']' then some ([], r)
    else
      match takeUntilRB r with
      | none => none
      | some (a, b) => some (c :: a, b)

/-- Python re.findall for the lazy bracket regex (backslash-bracket,
dot-star-question, backslash-bracket): every shortest span from a left
bracket to the next right bracket, scanning left to right. -/
def findallRangesAux : Nat → List Char → List (List Char)
  | 0, _ => []
  | _ + 1, [] => []
  | f + 1, c :: rest =>
    if c = '[' then
      match takeUntilRB rest with
      | some (content, rem) =>
        ('[' :: content ++ [']']) :: findallRangesAux f rem
      | none => findallRangesAux f rest
    else
      findallRangesAux f rest

/-- Entry point for the bracket findall; the fuel equals the length of
the scanned list, which every recursive step strictly decreases (the
remainder after a matched bracket span is a strict suffix, by
takeUntilRB_length). -/
def findallRanges (cs : List Char) : List (List Char) :=
  findallRangesAux cs.length cs

/-! ### The gitignore glob translator (backend.gitignore_to_regex)

The Python function protects each special glob construct behind a random
32-letter key before re.escape-ing the remaining literal text, then
restores each key as its regex replacement.  The random key stream is
modelled as an explicit parameter `keys`; the platform path separator
`os.path.sep` is instantiated to the POSIX "/" (whose re.escape is itself).
-/

/-- One protected replacement: draw a key for every match that
re.findall produced on the normalized pattern, record the (key,
replacement) pair, and replace all occurrences of the matched text in the
evolving protected pattern by the key. -/
structure ProtectState where
  keys : List (List Char)
  repls : List (List Char × List Char)
  prot : List Char

/-- Draw the next random key (the model's key stream is a parameter). -/
def drawKey (ks : List (List Char)) : List Char × List (List Char) :=
  match ks with
  | [] => ("KEYSUPPLYEXHAUSTED".data, [])
  | k :: rest => (k, rest)

/-- Protect every match of one glob construct behind a fresh key. -/
def protectPass (st : ProtectState) (ms : List (List Char))
    (repl : List Char) : ProtectState :=
  ms.foldl
    (fun st m =>
      let kk := drawKey st.keys
      { keys := kk.2, repls := st.repls ++ [(kk.1, repl)],
        prot := replaceL m kk.1 st.prot })
    st

/-- The six glob-to-regex replacement rules of gitignore_to_regex, in
source order, as (findall result on the normalized pattern, regex
replacement) pairs. -/
def globReplacements (pat : List Char) : List (List (List Char) × List Char) :=
  [ ((if "**/".data.isPrefixOf pat then ["**/".data] else []), "(?:.*/)?".data),
    ((if endsWithL pat "/**".data then ["/**".data] else []), "/.*$".data),
    (findallLit "/**/".data pat, "(?:/[^/]+)*/?".data),
    (findallLit "*".data pat, "[^/]+".data),
    (findallLit "?".data pat, "[^/]".data),
    (findallLit "/".data pat, "/".data) ]

/-- Protect every bracket range expression behind a fresh key; a range is
restored verbatim (passed through to the regex unmodified). -/
def protectRanges (st : ProtectState) (ranges : List (List Char)) : ProtectState :=
  ranges.foldl
    (fun st m =>
      let kk := drawKey st.keys
      { keys := kk.2, repls := st.repls ++ [(kk.1, m)],
        prot := replaceL m kk.1 st.prot })
    st

/-- backend.gitignore_to_regex: convert a gitignore glob `pattern` into a
regex string anchored at `pfx`, using `keys` as the stream of protection
keys (the Python code draws random 32-letter keys). -/
def gitignore_to_regex (keys : List String) (pfx pattern : String) : String :=
  let pat0 := pyStrip pattern
  let pat1 := if sEndsWith pat0 "\\" then pat0 ++ " " else pat0
  let pat2 := if (pat1.data.dropLast).contains '/' then pat1 else "**/" ++ pat1
  let pat3 := if sEndsWith pat2 "/" then pat2 ++ "**" else pat2
  let p := pat3.data
  let st0 : ProtectState := ⟨keys.map String.data, [], p⟩
  let st1 := (globReplacements p).foldl (fun st fr => protectPass st fr.1 fr.2) st0
  let st2 := protectRanges st1 (findallRanges p)
  let rp0 := (reEscape (String.mk st2.prot)).data
  let rp1 := st2.repls.foldl
    (fun r kr => replaceL (reEscape (String.mk kr.1)).data kr.2 r) rp0
  let rp2 := if "/".data.isPrefixOf rp1 then rp1.drop 1 else rp1
  "^" ++ reEscape pfx ++ "/" ++ String.mk rp2 ++ "(?:/.*)?$"

/-! ### A regex engine for the produced regular expressions

The translator's output uses the following regex constructs: literal
characters, backslash escapes of literals, the dot, character classes
(possibly negated, with ranges), non-capturing groups, the postfix
quantifiers star / plus / question mark, the leading caret and the dollar
end anchor.  The engine below parses exactly this fragment and matches
with Brzozowski derivatives.  Candidate paths contain no newline, so the
dollar anchor is an end-of-input assertion; it is handled by two
nullability functions (nullable at the end of the input vs. nullable in
the middle, where an end assertion fails). -/

/-- One item of a character class: a single character or a range. -/
inductive RChar where
  | single (c : Char)
  | range (lo hi : Char)
deriving Repr, DecidableEq

/-- Regex abstract syntax for the produced fragment.  eos is the dollar
end-of-input assertion. -/
inductive Rgx where
  | emp
  | eps
  | eos
  | dot
  | chr (c : Char)
  | cls (neg : Bool) (items : List RChar)
  | cat (a b : Rgx)
  | alt (a b : Rgx)
  | star (a : Rgx)
deriving Repr, DecidableEq

/-- Does a class item match the character? -/
def rcharMatch (c : Char) : RChar → Bool
  | .single a => a == c
  | .range lo hi => decide (lo ≤ c) && decide (c ≤ hi)

/-- Does a (possibly negated) character class match the character? -/
def clsMatch (neg : Bool) (items : List RChar) (c : Char) : Bool :=
  let m := items.any (rcharMatch c)
  if neg then !m else m

/-- Nullability at the end of the input (the dollar assertion holds). -/
def nuE : Rgx → Bool
  | .emp => false
  | .eps => true
  | .eos => true
  | .dot => false
  | .chr _ => false
  | .cls _ _ => false
  | .cat a b => nuE a && nuE b
  | .alt a b => nuE a || nuE b
  | .star _ => true

/-- Nullability strictly before the end of the input (the dollar
assertion fails, since paths contain no newline). -/
def nuM : Rgx → Bool
  | .emp => false
  | .eps => true
  | .eos => false
  | .dot => false
  | .chr _ => false
  | .cls _ _ => false
  | .cat a b => nuM a && nuM b
  | .alt a b => nuM a || nuM b
  | .star _ => true

/-- Smart concatenation (keeps derivative terms small). -/
def mkCat : Rgx → Rgx → Rgx
  | .emp, _ => .emp
  | .eps, b => b
  | a, b =>
    match b with
    | .emp => .emp
    | .eps => a
    | _ => .cat a b

/-- Smart alternation (keeps derivative terms small). -/
def mkAlt : Rgx → Rgx → Rgx
  | .emp, b => b
  | a, b =>
    match b with
    | .emp => a
    | _ => .alt a b

/-- Brzozowski derivative by one character.  Taking a derivative means the
input continues, so an end assertion that would have to hold here fails;
this is why the concatenation case uses mid-input nullability. -/
def derivC : Rgx → Char → Rgx
  | .emp, _ => .emp
  | .eps, _ => .emp
  | .eos, _ => .emp
  | .dot, c => if c = '\n' then .emp else .eps
  | .chr a, c => if a = c then .eps else .emp
  | .cls n it, c => if clsMatch n it c then .eps else .emp
  | .cat a b, c =>
    mkAlt (mkCat (derivC a c) b) (if nuM a then derivC b c else .emp)
  | .alt a b, c => mkAlt (derivC a c) (derivC b c)
  | .star a, c => mkCat (derivC a c) (.star a)

/-- Whole-string matching by iterated derivatives.  For the regexes the
translator produces (which always end in a dollar anchor) this coincides
with Python re.match on newline-free strings. -/
def rmatch (r : Rgx) (s : String) : Bool :=
  nuE (s.data.foldl derivC r)

/-! ### Parser for the produced regex strings -/

/-- Parse the items of a character class up to the closing bracket.
Follows Python re: a closing bracket as the first item is literal, a dash
first or last is literal, a backslash escapes the next character, and a
reversed range is an error (re.compile raises). -/
def parseClsItems (first : Bool) (fuel : Nat) (cs : List Char) :
    Option (List RChar × List Char) :=
  match fuel, cs with
  | 0, _ => none
  | _, [] => none
  | f + 1, c :: rest =>
    if c = ']' ∧ ¬ first then some ([], rest)
    else
      let lo? : Option (Char × List Char) :=
        if c = '\\' then
          match rest with
          | [] => none
          | d :: rest2 => some (d, rest2)
        else some (c, rest)
      match lo? with
      | none => none
      | some (lo, rest2) =>
        match rest2 with
        | '-' :: d :: rest3 =>
          if d = ']' then
            -- the dash is a literal final item
            match parseClsItems false f ('-' :: d :: rest3) with
            | some (items, rem) => some (.single lo :: items, rem)
            | none => none
          else
            let hi? : Option (Char × List Char) :=
              if d = '\\' then
                match rest3 with
                | [] => none
                | e :: rest4 => some (e, rest4)
              else some (d, rest3)
            match hi? with
            | none => none
            | some (hi, rest4) =>
              if lo ≤ hi then
                match parseClsItems false f rest4 with
                | some (items, rem) => some (.range lo hi :: items, rem)
                | none => none
              else none
        | _ =>
          match parseClsItems false f rest2 with
          | some (items, rem) => some (.single lo :: items, rem)
          | none => none

/-- Parse a character class after the opening bracket, including an
optional leading caret. -/
def parseCls (fuel : Nat) (cs : List Char) : Option (Rgx × List Char) :=
  let (neg, cs') :=
    match cs with
    | '^' :: r => (true, r)
    | _ => (false, cs)
  match parseClsItems true fuel cs' with
  | some (items, rem) => some (.cls neg items, rem)
  | none => none

/-- Apply an optional postfix quantifier. -/
def applyQuant (a : Rgx) (cs : List Char) : Rgx × List Char :=
  match cs with
  | '*' :: r => (.star a, r)
  | '+' :: r => (.cat a (.star a), r)
  | '?' :: r => (.alt a .eps, r)
  | _ => (a, cs)

/-- Recursive-descent parser.  With the flag true it parses one atom (a
non-capturing group, a class, an escape, the dot, the dollar anchor, or a
literal character); with the flag false it parses a possibly empty
sequence of quantified atoms, stopping at a closing parenthesis or at the
end of the input.  The fuel only bounds the recursion depth; the entry
point supplies more than enough. -/
def parseRun : Bool → Nat → List Char → Option (Rgx × List Char)
  | _, 0, _ => none
  | true, f + 1, cs =>
    match cs with
    | [] => none
    | '(' :: '?' :: ':' :: rest =>
      match parseRun false f rest with
      | some (r, ')' :: rest2) => some (r, rest2)
      | _ => none
    | '(' :: _ => none
    | '[' :: rest => parseCls f rest
    | '\\' :: d :: rest => if d.isAlphanum then none else some (.chr d, rest)
    | '\\' :: [] => none
    | '.' :: rest => some (.dot, rest)
    | '$' :: rest => some (.eos, rest)
    | '^' :: _ => none
    | '*' :: _ => none
    | '+' :: _ => none
    | '?' :: _ => none
    | c :: rest => some (.chr c, rest)
  | false, f + 1, cs =>
    match cs with
    | [] => some (.eps, [])
    | ')' :: _ => some (.eps, cs)
    | _ =>
      match parseRun true f cs with
      | none => none
      | some (a, rest) =>
        let q := applyQuant a rest
        match parseRun false f q.2 with
        | none => none
        | some (b, rest2) => some (.cat q.1 b, rest2)

/-- Parse a full regex string as produced by the translator: an optional
leading caret (redundant under re.match), then a sequence that must
consume the entire string. -/
def parseRegex (s : String) : Option Rgx :=
  let cs := s.data
  let cs' :=
    match cs with
    | '^' :: r => r
    | _ => cs
  match parseRun false (2 * cs'.length + 4) cs' with
  | some (r, []) => some r
  | _ => none

/-- Compile a regex string and match it against a path, as Python
re.compile followed by re.match: none models a compilation error. -/
def reCompileMatch (regexStr path : String) : Option Bool :=
  (parseRegex regexStr).map (fun r => rmatch r path)

/-! ### The verification table for the glob translator -/

/-- A concrete 32-letter protection key, as random.choices over ascii
letters would produce. -/
def mkKey (c : Char) : String := String.mk (List.replicate 32 c)

/-- A concrete stream of pairwise distinct 32-letter protection keys,
none of which occurs in any pattern of the verification table. -/
def testKeys : List String :=
  ['A', 'B', 'C', 'D', 'E', 'F', 'G', 'H', 'I', 'J', 'K', 'L', 'M', 'N',
   'O', 'P'].map mkKey

/-- The verification table of the specification: for each entry, the
translator is run on the prefix and pattern, the produced regex is
compiled and matched against the candidate path, and the result must be
the expected boolean. -/
def globTable : List (String × String × String × Bool) :=
  [ ("a", "*.pyc", "a/file.pyc", true),
    ("a", "*.pyc", "b/file.pyc", false),
    ("root", "doc/frotz/", "root/doc/frotz/", true),
    ("root", "doc/frotz/", "root/a/doc/frotz/", false),
    ("root", "frotz/", "root/doc/frotz/", true),
    ("root", "frotz/", "root/a/doc/frotz/", true),
    ("a", "**/foo", "a/b/foo", true),
    ("a", "**/foo", "a/b/c/foo", true),
    ("root", "a/**/b", "root/a/b", true),
    ("root", "a/**/b", "root/a/x/b", true),
    ("root", "a/**/b", "root/a/x/y/b", true),
    ("a", "f[a-zA-Z].pyc", "a/fa.pyc", true),
    ("a", "f[a-zA-Z].pyc", "a/f1.pyc", false),
    ("a", "f[a-zA-Z].pyc", "a/file.pyc", false) ]

/-- Check one verification-table entry. -/
def checkGlobEntry : String × String × String × Bool → Bool
  | (pre, pat, path, expected) =>
    reCompileMatch (gitignore_to_regex testKeys pre pat) path == some expected

/-! ### pathlib and fnmatch model

The in-archive name of a file is a PurePath; the builder needs its stem
(for the dotfile policy), its string form (for regex matching) and
PurePath.match (for glob patterns).  Paths are modelled as strings with
"/" as separator, as on POSIX. -/

/-- Test whether the string `s` starts with `pre` (Python str.startswith). -/
def sStartsWith (s pre : String) : Bool :=
  pre.data.isPrefixOf s.data

/-- Split a character list on a separator character, keeping empty
pieces. -/
def splitOnChar (sepc : Char) : List Char → List (List Char)
  | [] => [[]]
  | c :: rest =>
    if c = sepc then [] :: splitOnChar sepc rest
    else
      match splitOnChar sepc rest with
      | [] => [[c]]
      | piece :: pieces => (c :: piece) :: pieces

/-- The path components of a string, as pathlib parses them on POSIX:
split on "/" and drop empty pieces. -/
def splitComponents (s : String) : List String :=
  ((splitOnChar '/' s.data).map String.mk).filter (· ≠ "")

/-- The parsed parts of a path, including the root marker for an
absolute path (pathlib parse_parts on POSIX, drive always empty). -/
def parseParts (s : String) : List String :=
  (if sStartsWith s "/" then ["/"] else []) ++ splitComponents s

/-- The final path component (PurePath.name; empty for an empty path). -/
def lastComponent (s : String) : String :=
  ((splitComponents s).getLast?).getD ""

/-- The index of the last occurrence of a character (Python str.rfind). -/
def pyRFind (c : Char) : List Char → Option Nat
  | [] => none
  | x :: rest =>
    match pyRFind c rest with
    | some i => some (i + 1)
    | none => if x = c then some 0 else none

/-- PurePath.stem of a single path component: the name with its final
suffix removed; a leading dot or a trailing dot does not start a
suffix. -/
def pyStem (name : String) : String :=
  match pyRFind '.' name.data with
  | some i =>
    if 0 < i ∧ i < name.length - 1 then String.mk (name.data.take i)
    else name
  | none => name

/-- Parse an fnmatch bracket expression after the opening bracket: an
optional negating bang, a closing bracket as first item is literal,
a dash first or last is literal.  Returns none for an unterminated
bracket (which fnmatch then treats as a literal opening bracket). -/
def parseBracketFn (cs : List Char) : Option (Bool × List RChar × List Char) :=
  let p : Bool × List Char :=
    match cs with
    | '!' :: r => (true, r)
    | _ => (false, cs)
  match parseClsItems true (p.2.length + 1) p.2 with
  | some (items, rest) => some (p.1, items, rest)
  | none => none

/-- fnmatch.fnmatchcase on one path component: star matches any run of
characters, question mark any one character, bracket expressions one
character of a class.  The fuel is the summed length of pattern and
string, which every recursive call strictly decreases. -/
def fnmatchAux : Nat → List Char → List Char → Bool
  | 0, pat, s => pat.isEmpty && s.isEmpty
  | _ + 1, [], s => s.isEmpty
  | f + 1, '*' :: ps, s =>
    fnmatchAux f ps s ||
      (match s with
       | [] => false
       | _ :: s' => fnmatchAux f ('*' :: ps) s')
  | f + 1, '?' :: ps, s =>
    (match s with
     | [] => false
     | _ :: s' => fnmatchAux f ps s')
  | f + 1, '[' :: ps, s =>
    (match parseBracketFn ps with
     | some (neg, items, rest) =>
       match s with
       | [] => false
       | c :: s' => clsMatch neg items c && fnmatchAux f rest s'
     | none =>
       match s with
       | [] => false
       | c :: s' => (c == '[') && fnmatchAux f ps s')
  | f + 1, c :: ps, s =>
    (match s with
     | [] => false
     | c' :: s' => (c == c') && fnmatchAux f ps s')

/-- fnmatch.fnmatchcase of one pattern component against one path
component. -/
def fnmatchOne (pat s : String) : Bool :=
  fnmatchAux (pat.data.length + s.data.length) pat.data s.data

/-- PurePath.match as a boolean: a relative pattern is matched from the
right against the trailing components; an anchored (absolute) pattern
must match all components. -/
def pathMatchB (pattern path : String) : Bool :=
  let pp := parseParts pattern
  let parts := parseParts path
  if sStartsWith pattern "/" then
    pp.length == parts.length &&
      (List.zip parts.reverse pp.reverse).all (fun x => fnmatchOne x.2 x.1)
  else
    decide (pp.length ≤ parts.length) &&
      (List.zip parts.reverse pp.reverse).all (fun x => fnmatchOne x.2 x.1)

/-- PurePath.match including its failure mode: an empty pattern raises
ValueError("empty pattern"). -/
def purePathMatch (pattern path : String) : Except String Bool :=
  if parseParts pattern = [] then .error "empty pattern"
  else .ok (pathMatchB pattern path)

/-! ### Exclusion patterns and the archive builder -/

/-- An exclusion pattern, as held in the exclude list of the backend: a
raw glob string, or a regular expression compiled from a gitignore
line.  (These are the only two types the backend ever inserts; the
TypeError branch of the matching loop is unreachable.) -/
inductive XPat where
  | glob (pat : String)
  | regex (r : Rgx)
deriving Repr, DecidableEq

/-- Evaluate one exclusion pattern against an in-archive name, as the
matching loop of _add_to_zip does: a compiled regex via re Pattern.match
(the produced regexes are dollar-anchored, so whole-string matching), a
glob string via PurePath.match (which can raise on an empty pattern). -/
def patMatchRes (filename : String) : XPat → Except String Bool
  | .glob p => purePathMatch p filename
  | .regex r => .ok (rmatch r filename)

/-- Total (spec-side) evaluation of one exclusion pattern. -/
def patMatchB (filename : String) : XPat → Bool
  | .glob p => pathMatchB p filename
  | .regex r => rmatch r filename

/-- A glob pattern is well formed when it is non-empty after path
parsing (PurePath.match does not raise on it); compiled regexes never
raise. -/
def patWellFormed : XPat → Bool
  | .glob p => !(parseParts p).isEmpty
  | .regex _ => true

/-- The exclusion loop of _add_to_zip: evaluate the patterns in order
and stop at the first match; a raised error propagates. -/
def isExcluded (pats : List XPat) (filename : String) : Except String Bool :=
  match pats with
  | [] => .ok false
  | p :: rest =>
    match patMatchRes filename p with
    | .error e => .error e
    | .ok true => .ok true
    | .ok false => isExcluded rest filename

/-- One member of the output archive: the in-archive name, the byte
content, and the preserved permission bits. -/
structure ZipMember where
  arcname : String
  filedata : List Nat
  perm : Nat
deriving Repr, DecidableEq

/-- The failure modes of a build. -/
inductive ZipError where
  | readError (path : String)
  | valueError (msg : String)
  | patternCompileError (line : String)
deriving Repr, DecidableEq

/-- A filesystem entry: a regular file (with a readability flag — an
unreadable file makes read_bytes raise), a directory, or anything that
is neither a regular file nor a directory (broken symlink, FIFO, ...). -/
inductive FSEntry where
  | file (name : String) (readable : Bool) (content : List Nat) (perm : Nat)
  | dir (name : String) (children : List FSEntry)
  | other (name : String)
deriving Repr

/-- Join path components with the separator (str of a PurePath built
from the components). -/
def joinPath : List String → String
  | [] => ""
  | [p] => p
  | p :: rest => p ++ "/" ++ joinPath rest

/-- The in-archive name: root_folder / relative-path when a root folder
is set, else just the relative path. -/
def arcName (rootFolder : Option String) (relParts : List String) : String :=
  match rootFolder with
  | none => joinPath relParts
  | some r => joinPath (r :: relParts)

/-- The dotfile filter of _add_to_zip: the stem of the in-archive name
starts with a dot. -/
def dotfileSkip (filename : String) : Bool :=
  sStartsWith (pyStem (lastComponent filename)) "."

mutual

/-- backend._add_to_zip: recursively add one filesystem entry.  For a
regular file the byte content is read first (read_bytes raises on an
unreadable file), then the dotfile filter and the exclusion loop run,
and only a surviving file produces one archive member.  A directory
recurses over its children; anything else is skipped silently. -/
def addToZip (rootFolder : Option String) (exclude : List XPat)
    (excludeDotfiles : Bool) (relPrefix : List String) (e : FSEntry) :
    Except ZipError (List ZipMember) :=
  match e with
  | .file n readable content perm =>
    let filename := arcName rootFolder (relPrefix ++ [n])
    if !readable then .error (.readError filename)
    else if excludeDotfiles && dotfileSkip filename then .ok []
    else
      match isExcluded exclude filename with
      | .error msg => .error (.valueError msg)
      | .ok true => .ok []
      | .ok false => .ok [⟨filename, content, perm⟩]
  | .dir n children =>
    addEntries rootFolder exclude excludeDotfiles (relPrefix ++ [n]) children
  | .other _ => .ok []

/-- Sequential addition of a list of entries (the iteration order of
iterdir, or of the top-level input list); the first raised error aborts
the build. -/
def addEntries (rootFolder : Option String) (exclude : List XPat)
    (excludeDotfiles : Bool) (relPrefix : List String) (es : List FSEntry) :
    Except ZipError (List ZipMember) :=
  match es with
  | [] => .ok []
  | e :: rest =>
    match addToZip rootFolder exclude excludeDotfiles relPrefix e with
    | .error err => .error err
    | .ok ms =>
      match addEntries rootFolder exclude excludeDotfiles relPrefix rest with
      | .error err => .error err
      | .ok ms2 => .ok (ms ++ ms2)

end

/-- backend.zip_files restricted to the traversal stage: every top-level
input is added relative to its own parent (an empty relative prefix). -/
def zipFilesEntries (rootFolder : Option String) (exclude : List XPat)
    (excludeDotfiles : Bool) (files : List FSEntry) :
    Except ZipError (List ZipMember) :=
  addEntries rootFolder exclude excludeDotfiles [] files

/-! ### Pattern-list construction (backend.zip_files) -/

/-- Python str.splitlines restricted to newline separators: split on the
newline character; a trailing newline does not produce a final empty
line, but interior blank lines are kept. -/
def pySplitlines (s : String) : List String :=
  match s.data with
  | [] => []
  | _ =>
    let parts := (splitOnChar '\n' s.data).map String.mk
    if parts.getLast? = some "" then parts.dropLast else parts

/-- The built-in VCS exclusion patterns (backend._VCS_EXCLUDES). -/
def VCS_EXCLUDES : List String :=
  ["CVS/*", "RCS/*", "SCCS/*", ".git/*", ".gitignore", ".gitmodules",
   ".gitattributes", ".cvsignore", ".svn/*", ".arch-ids/*", "\x7barch\x7d/*",
   "=RELEASE-ID", "=meta-update", "=update", ".bzr", ".bzrignore",
   ".bzrtags", ".hg", ".hgignore", ".hgrags", "_darcs"]

/-- The glob-string part of the exclude list of backend.zip_files: the
explicit patterns, then every line of every exclude-from file (read with
splitlines), then the VCS set when enabled. -/
def buildGlobExcludes (explicit fromContents : List String)
    (excludeVcs : Bool) : List String :=
  let e1 := explicit ++ fromContents.foldr (fun c acc => pySplitlines c ++ acc) []
  if excludeVcs then e1 ++ VCS_EXCLUDES else e1

/-- backend._get_single_gitignore_excludes: process the lines of one
gitignore file under its effective prefix.  Comment and blank lines are
skipped, negated lines are dropped with a warning, every other line is
translated and compiled; a line whose produced regex does not compile
raises at that point. -/
def getSingleGitignoreExcludes (keys : List String) (pfx : String)
    (lines : List String) : Except ZipError (List XPat) :=
  match lines with
  | [] => .ok []
  | line :: rest =>
    if sStartsWith line "#" || pyStrip line == "" then
      getSingleGitignoreExcludes keys pfx rest
    else if sStartsWith line "!" then
      getSingleGitignoreExcludes keys pfx rest
    else
      match parseRegex (gitignore_to_regex keys pfx line) with
      | some r =>
        match getSingleGitignoreExcludes keys pfx rest with
        | .ok ps => .ok (XPat.regex r :: ps)
        | .error e => .error e
      | none => .error (.patternCompileError line)

/-- backend._get_gitignore_excludes over the discovered gitignore files,
each given as its effective prefix and its lines. -/
def getGitignoreExcludes (keys : List String)
    (gs : List (String × List String)) : Except ZipError (List XPat) :=
  match gs with
  | [] => .ok []
  | g :: rest =>
    match getSingleGitignoreExcludes keys g.1 g.2 with
    | .error e => .error e
    | .ok ps =>
      match getGitignoreExcludes keys rest with
      | .error e => .error e
      | .ok ps2 => .ok (ps ++ ps2)

/-- backend.zip_files: build the exclude list (explicit patterns,
exclude-from lines, VCS set, then the compiled gitignore patterns), then
traverse the inputs and write the archive.  The pattern list is built
before the archive is opened; an error during its construction aborts
the invocation with no member written. -/
def zipFilesRun (keys : List String) (rootFolder : Option String)
    (explicit fromContents : List String) (excludeVcs : Bool)
    (gitignores : List (String × List String)) (excludeGitIgnores : Bool)
    (excludeDotfiles : Bool) (files : List FSEntry) :
    Except ZipError (List ZipMember) :=
  let globs := (buildGlobExcludes explicit fromContents excludeVcs).map XPat.glob
  match (if excludeGitIgnores then getGitignoreExcludes keys gitignores else .ok []) with
  | .error e => .error e
  | .ok gi => addEntries rootFolder (globs ++ gi) excludeDotfiles [] files

/-! ### The zip-folder entry point (zip_folder.zip_folder) -/

/-- The effective root folder of zip_folder: an explicit root folder
wins; otherwise the folder's own base name, overridden by the stem of
the output file when the auto-root flag is set. -/
def zipFolderRootFolder (rootFolderOpt : Option String) (autoRoot : Bool)
    (outfile folder : String) : String :=
  match rootFolderOpt with
  | some r => r
  | none =>
    if autoRoot then pyStem (lastComponent outfile) else lastComponent folder

/-- zip_folder restricted to the traversal stage: the children of the
folder are the inputs, and the effective root folder is always set. -/
def zipFolderEntries (rootFolderOpt : Option String) (autoRoot : Bool)
    (outfile folder : String) (exclude : List XPat) (excludeDotfiles : Bool)
    (children : List FSEntry) : Except ZipError (List ZipMember) :=
  zipFilesEntries
    (some (zipFolderRootFolder rootFolderOpt autoRoot outfile folder))
    exclude excludeDotfiles children

/-! ### Spec-side definitions for the builder guarantee

These follow the specification's words (not the code): a file is skipped
when the dotfile policy applies to its base name or some pattern in the
pattern list matches its in-archive name; the files of the output are
exactly the reachable, not excluded regular files, and directories never
produce entries of their own. -/

/-- Spec-side skip decision: dotfile policy on the base name, or any-of
over the pattern list. -/
def specSkips (excludeDotfiles : Bool) (pats : List XPat) (fn : String) : Bool :=
  (excludeDotfiles && sStartsWith (lastComponent fn) ".") ||
    pats.any (patMatchB fn)

mutual

/-- Spec-side collection of the included files reachable from one entry. -/
def includedFiles (rootFolder : Option String) (pats : List XPat)
    (excludeDotfiles : Bool) (relPrefix : List String) (e : FSEntry) :
    List ZipMember :=
  match e with
  | .file n _ content perm =>
    let fn := arcName rootFolder (relPrefix ++ [n])
    if specSkips excludeDotfiles pats fn then [] else [⟨fn, content, perm⟩]
  | .dir n children =>
    includedFilesList rootFolder pats excludeDotfiles (relPrefix ++ [n]) children
  | .other _ => []

/-- Spec-side collection over a list of entries. -/
def includedFilesList (rootFolder : Option String) (pats : List XPat)
    (excludeDotfiles : Bool) (relPrefix : List String) (es : List FSEntry) :
    List ZipMember :=
  match es with
  | [] => []
  | e :: rest =>
    includedFiles rootFolder pats excludeDotfiles relPrefix e ++
      includedFilesList rootFolder pats excludeDotfiles relPrefix rest

end

mutual

/-- Every regular file reachable from the entry is readable. -/
def allReadable : FSEntry → Bool
  | .file _ r _ _ => r
  | .dir _ cs => allReadableList cs
  | .other _ => true

/-- Every regular file reachable from the entries is readable. -/
def allReadableList : List FSEntry → Bool
  | [] => true
  | e :: rest => allReadable e && allReadableList rest

end

/-! ## Theorems

Supporting lemmas first, then one theorem per claim (with its witness or
counterexample where applicable). -/

/-- The remainder returned by takeUntilRB is a strict suffix; this is
the fuel-adequacy fact behind findallRanges. -/
theorem takeUntilRB_length :
    ∀ (l a b : List Char), takeUntilRB l = some (a, b) → b.length < l.length := by
  intro l
  induction l with
  | nil => intro a b h; simp [takeUntilRB] at h
  | cons c r ih =>
    intro a b h
    by_cases hc : c = ']'
    · simp [takeUntilRB, hc] at h
      simp [← h.2]
    · simp only [takeUntilRB, if_neg hc] at h
      cases hr : takeUntilRB r with
      | none => rw [hr] at h; simp at h
      | some p =>
        rw [hr] at h
        cases p with
        | mk a' b' =>
          simp at h
          have := ih a' b' hr
          simp [← h.2]
          omega

/-- Taking a positive-length prefix of a component preserves whether it
starts with a dot. -/
theorem isPrefixOf_dot_take (cs : List Char) (i : Nat) (hi : 0 < i) :
    ((['.'] : List Char).isPrefixOf (cs.take i)) = (['.'] : List Char).isPrefixOf cs := by
  cases cs with
  | nil => simp
  | cons c t =>
    cases i with
    | zero => omega
    | succ j => simp [List.isPrefixOf]

/-- The stem of a component starts with a dot exactly when the component
itself does. -/
theorem pyStem_dot (n : String) :
    sStartsWith (pyStem n) "." = sStartsWith n "." := by
  unfold pyStem
  cases h : pyRFind '.' n.data with
  | none => rfl
  | some i =>
    dsimp only
    by_cases hc : 0 < i ∧ i < n.length - 1
    · rw [if_pos hc]
      simp only [sStartsWith]
      exact isPrefixOf_dot_take n.data i hc.1
    · rw [if_neg hc]

/-- The dotfile filter of the code (stem of the base name starts with a
dot) agrees with the specification's phrasing (the base name starts with
a dot). -/
theorem dotfileSkip_eq_base (fn : String) :
    dotfileSkip fn = sStartsWith (lastComponent fn) "." := by
  unfold dotfileSkip
  exact pyStem_dot (lastComponent fn)

/-- On a well-formed (non-empty) glob pattern, PurePath.match does not
raise. -/
theorem purePathMatch_wf (p fn : String) (h : (parseParts p).isEmpty = false) :
    purePathMatch p fn = .ok (pathMatchB p fn) := by
  unfold purePathMatch
  rw [if_neg]
  intro hh
  rw [hh] at h
  simp at h

/-- On a well-formed pattern, the code's pattern evaluation agrees with
the total spec-side evaluation. -/
theorem patMatchRes_wf (pt : XPat) (fn : String) (h : patWellFormed pt = true) :
    patMatchRes fn pt = .ok (patMatchB fn pt) := by
  cases pt with
  | glob p =>
    simp only [patWellFormed, Bool.not_eq_true'] at h
    exact purePathMatch_wf p fn h
  | regex r => rfl

/-- On a list of well-formed patterns, the first-match exclusion loop
computes exactly the any-of decision. -/
theorem isExcluded_wf (pats : List XPat) (fn : String)
    (h : ∀ p ∈ pats, patWellFormed p = true) :
    isExcluded pats fn = .ok (pats.any (patMatchB fn)) := by
  induction pats with
  | nil => rfl
  | cons p rest ih =>
    have hp := h p (by simp)
    have hrest : ∀ q ∈ rest, patWellFormed q = true := fun q hq => h q (by simp [hq])
    simp only [isExcluded, patMatchRes_wf p fn hp]
    cases hb : patMatchB fn p
    · simp [hb, ih hrest]
    · simp [hb]

mutual

/-- The builder refines the spec-side collection: on readable files and
well-formed patterns, adding one entry produces exactly the included
reachable files below it, in traversal order. -/
theorem addToZip_spec (root : Option String) (pats : List XPat) (d : Bool)
    (pre : List String) (e : FSEntry)
    (hwf : ∀ p ∈ pats, patWellFormed p = true) (hrd : allReadable e = true) :
    addToZip root pats d pre e = .ok (includedFiles root pats d pre e) := by
  cases e with
  | file n r c p =>
    simp only [allReadable] at hrd
    subst hrd
    have hex := isExcluded_wf pats (arcName root (pre ++ [n])) hwf
    by_cases hd : (d && dotfileSkip (arcName root (pre ++ [n]))) = true
    · have hd' := hd
      rw [dotfileSkip_eq_base] at hd'
      simp [addToZip, includedFiles, specSkips, hd, hd']
    · have hd' := hd
      rw [dotfileSkip_eq_base] at hd'
      cases hany : pats.any (patMatchB (arcName root (pre ++ [n]))) with
      | false => simp [addToZip, includedFiles, specSkips, hd, hd', hex, hany]
      | true => simp [addToZip, includedFiles, specSkips, hd, hd', hex, hany]
  | dir n children =>
    simp only [addToZip, includedFiles]
    exact addEntries_spec root pats d (pre ++ [n]) children hwf
      (by simpa [allReadable] using hrd)
  | other n => rfl

/-- List version of addToZip_spec. -/
theorem addEntries_spec (root : Option String) (pats : List XPat) (d : Bool)
    (pre : List String) (es : List FSEntry)
    (hwf : ∀ p ∈ pats, patWellFormed p = true)
    (hrd : allReadableList es = true) :
    addEntries root pats d pre es = .ok (includedFilesList root pats d pre es) := by
  cases es with
  | nil => rfl
  | cons e rest =>
    simp only [allReadableList, Bool.and_eq_true] at hrd
    simp only [addEntries, includedFilesList]
    rw [addToZip_spec root pats d pre e hwf hrd.1,
      addEntries_spec root pats d pre rest hwf hrd.2]

end

/-- Joining a root in front of a non-empty component list prepends the
root and a separator. -/
theorem joinPath_cons (r : String) (parts : List String) (h : parts ≠ []) :
    joinPath (r :: parts) = r ++ "/" ++ joinPath parts := by
  cases parts with
  | nil => exact absurd rfl h
  | cons a as => cases as <;> rfl

mutual

/-- Every member written under a set root folder has the root folder and
a separator as a name prefix. -/
theorem addToZip_root_prefix (r : String) (pats : List XPat) (d : Bool)
    (pre : List String) (e : FSEntry) (ms : List ZipMember)
    (h : addToZip (some r) pats d pre e = .ok ms) :
    ∀ m ∈ ms, ∃ rest, m.arcname = r ++ "/" ++ rest := by
  cases e with
  | file n rd c p =>
    cases rd with
    | false => simp [addToZip] at h
    | true =>
      simp only [addToZip, Bool.not_true, Bool.false_eq_true, if_false] at h
      split at h
      · injection h with h'
        subst h'
        intro m hm
        simp at hm
      · cases hex : isExcluded pats (arcName (some r) (pre ++ [n])) with
        | error msg => rw [hex] at h; simp at h
        | ok b =>
          rw [hex] at h
          cases b with
          | true =>
            simp only [] at h
            injection h with h'
            subst h'
            intro m hm
            simp at hm
          | false =>
            simp only [] at h
            injection h with h'
            subst h'
            intro m hm
            simp at hm
            subst hm
            refine ⟨joinPath (pre ++ [n]), ?_⟩
            show arcName (some r) (pre ++ [n]) = r ++ "/" ++ joinPath (pre ++ [n])
            unfold arcName
            exact joinPath_cons r (pre ++ [n]) (by simp)
  | dir n children =>
    simp only [addToZip] at h
    exact addEntries_root_prefix r pats d (pre ++ [n]) children ms h
  | other n =>
    simp only [addToZip] at h
    injection h with h'
    subst h'
    intro m hm
    simp at hm

/-- List version of addToZip_root_prefix. -/
theorem addEntries_root_prefix (r : String) (pats : List XPat) (d : Bool)
    (pre : List String) (es : List FSEntry) (ms : List ZipMember)
    (h : addEntries (some r) pats d pre es = .ok ms) :
    ∀ m ∈ ms, ∃ rest, m.arcname = r ++ "/" ++ rest := by
  cases es with
  | nil =>
    simp only [addEntries] at h
    injection h with h'
    subst h'
    intro m hm
    simp at hm
  | cons e rest =>
    simp only [addEntries] at h
    cases h1 : addToZip (some r) pats d pre e with
    | error err => rw [h1] at h; simp at h
    | ok ms1 =>
      rw [h1] at h
      cases h2 : addEntries (some r) pats d pre rest with
      | error err => rw [h2] at h; simp at h
      | ok ms2 =>
        rw [h2] at h
        simp only [] at h
        injection h with h'
        subst h'
        intro m hm
        rcases List.mem_append.mp hm with hm1 | hm2
        · exact addToZip_root_prefix r pats d pre e ms1 h1 m hm1
        · exact addEntries_root_prefix r pats d pre rest ms2 h2 m hm2

end

/-! ## Claim theorems -/

/-- C1: For every (prefix, pattern, candidate-path, expected-boolean)
entry of the specification's verification table, compiling the regex
string returned by the glob translator for that prefix and pattern and
matching it against the candidate path yields exactly the expected
boolean. -/
theorem C1_glob_translator_table : globTable.all checkGlobEntry = true := by
  decide

/-- C2: For readable inputs and well-formed patterns, the archive member
list equals the spec-side collection of the reachable files that survive
the dotfile policy and the any-of pattern decision — so every reachable,
not excluded regular file appears exactly once, and no directory ever
produces a standalone entry (only file nodes contribute members). -/
theorem C2_archive_members_exact (root : Option String) (pats : List XPat)
    (d : Bool) (files : List FSEntry)
    (hwf : ∀ p ∈ pats, patWellFormed p = true)
    (hrd : allReadableList files = true) :
    zipFilesEntries root pats d files
      = .ok (includedFilesList root pats d [] files) :=
  addEntries_spec root pats d [] files hwf hrd

/-- Witness for C2 on a concrete forest with a directory, a dotfile and
a pattern-excluded file. -/
theorem C2_archive_members_exact_witness :
    zipFilesEntries (some "R") [XPat.glob "*.pyc"] true
        [FSEntry.dir "A"
          [FSEntry.file "x.py" true [1] 5, FSEntry.file ".h" true [2] 5,
           FSEntry.file "y.pyc" true [3] 5],
         FSEntry.file "B.txt" true [4] 5]
      = .ok (includedFilesList (some "R") [XPat.glob "*.pyc"] true []
        [FSEntry.dir "A"
          [FSEntry.file "x.py" true [1] 5, FSEntry.file ".h" true [2] 5,
           FSEntry.file "y.pyc" true [3] 5],
         FSEntry.file "B.txt" true [4] 5]) :=
  C2_archive_members_exact (some "R") [XPat.glob "*.pyc"] true
    [FSEntry.dir "A"
      [FSEntry.file "x.py" true [1] 5, FSEntry.file ".h" true [2] 5,
       FSEntry.file "y.pyc" true [3] 5],
     FSEntry.file "B.txt" true [4] 5]
    (by decide) (by decide)

/-- C3 counterexample: the byte content is read before the filters run,
so an unreadable file aborts the build even though an exclusion pattern
matches it — contradicting the claim that an unreadable excluded file
does not abort the build. -/
theorem C3_counterexample_unreadable_excluded_aborts :
    addToZip none [XPat.glob "secret.txt"] false []
        (.file "secret.txt" false [] 0)
      = .error (.readError "secret.txt") := by
  decide

/-- C3 (amended): a skipped file still produces no archive entry, but
its bytes are read before the dotfile and pattern filters, so an
unreadable file aborts the build regardless of the filters. -/
theorem C3_amended_read_before_filters (root : Option String)
    (pats : List XPat) (d : Bool) (pre : List String) (n : String)
    (c : List Nat) (p : Nat) :
    addToZip root pats d pre (.file n false c p)
      = .error (.readError (arcName root (pre ++ [n]))) ∧
    (((d = true ∧ dotfileSkip (arcName root (pre ++ [n])) = true) ∨
        isExcluded pats (arcName root (pre ++ [n])) = .ok true) →
      addToZip root pats d pre (.file n true c p) = .ok []) := by
  constructor
  · rfl
  · intro hskip
    by_cases hd : (d && dotfileSkip (arcName root (pre ++ [n]))) = true
    · simp [addToZip, hd]
    · rcases hskip with ⟨hd1, hd2⟩ | hex
      · exact absurd (by simp [hd1, hd2]) hd
      · simp [addToZip, hd, hex]

/-- Witness for the amended C3: a readable dotfile-free file matched by
a pattern is skipped without an entry. -/
theorem C3_amended_read_before_filters_witness :
    addToZip none [XPat.glob ".env"] false [] (.file ".env" true [] 0)
      = .ok [] :=
  (C3_amended_read_before_filters none [XPat.glob ".env"] false [] ".env" [] 0).2
    (Or.inr (by decide))

/-- C4 counterexample: an interior blank line in an exclude-list file is
not ignored — it becomes an empty glob pattern and checking a file
against it raises, aborting the build; the same invocation without the
blank line succeeds. -/
theorem C4_counterexample_blank_line_aborts :
    zipFilesRun [] none [] ["a\n\nb"] false [] false false
        [.file "x.txt" true [] 0]
      = .error (.valueError "empty pattern") ∧
    zipFilesRun [] none [] ["a\nb"] false [] false false
        [.file "x.txt" true [] 0]
      = .ok [⟨"x.txt", [], 0⟩] := by
  decide

/-- C4 (amended): every splitlines line of every exclude-list file —
including interior blank lines — becomes a Glob-variant pattern appended
in file order after the explicit patterns; a blank line yields the empty
pattern, and matching a name against it raises an error that aborts the
build once the exclusion loop reaches it. -/
theorem C4_amended_all_lines_become_patterns (explicit contents : List String)
    (pats rest : List XPat) (fn : String)
    (hok : ∀ p ∈ pats, patWellFormed p = true ∧ patMatchB fn p = false) :
    buildGlobExcludes explicit contents false
      = explicit ++ contents.foldr (fun c acc => pySplitlines c ++ acc) [] ∧
    pySplitlines "a\n\nb" = ["a", "", "b"] ∧
    isExcluded (pats ++ XPat.glob "" :: rest) fn = .error "empty pattern" := by
  refine ⟨rfl, by decide, ?_⟩
  induction pats with
  | nil =>
    simp only [List.nil_append, isExcluded, patMatchRes]
    rfl
  | cons p ps ih =>
    have hp := hok p (by simp)
    have hps : ∀ q ∈ ps, patWellFormed q = true ∧ patMatchB fn q = false :=
      fun q hq => hok q (by simp [hq])
    simp only [List.cons_append, isExcluded, patMatchRes_wf p fn hp.1, hp.2]
    exact ih hps

/-- Witness for the amended C4 at a concrete exclude-list file and a
concrete pattern list. -/
theorem C4_amended_all_lines_become_patterns_witness :
    buildGlobExcludes ["e"] ["a\n\nb"] false
      = ["e"] ++ (["a\n\nb"].foldr (fun c acc => pySplitlines c ++ acc) []) ∧
    pySplitlines "a\n\nb" = ["a", "", "b"] ∧
    isExcluded ([XPat.glob "zzz"] ++ XPat.glob "" :: []) "x.txt"
      = .error "empty pattern" :=
  C4_amended_all_lines_become_patterns ["e"] ["a\n\nb"] [XPat.glob "zzz"] []
    "x.txt" (by decide)

/-- C5 counterexample: with dotfile-exclusion off, a dotfile matched by
an exclusion pattern is excluded all the same — so the dotfile is not
"excluded only when dotfile-exclusion is requested, regardless of
patterns". -/
theorem C5_counterexample_pattern_excludes_dotfile :
    addToZip none [XPat.glob ".env"] false [] (.file ".env" true [42] 0)
      = .ok [] := by
  decide

/-- C5 (amended): when dotfile-exclusion is requested, a dotfile is
skipped regardless of the patterns; when it is not requested, a dotfile
receives no special treatment — it is included exactly when no exclusion
pattern matches it. -/
theorem C5_amended_dotfile_policy (root : Option String) (pats : List XPat)
    (pre : List String) (n : String) (c : List Nat) (p : Nat) :
    (dotfileSkip (arcName root (pre ++ [n])) = true →
      addToZip root pats true pre (.file n true c p) = .ok []) ∧
    ((∀ q ∈ pats, patWellFormed q = true) →
      addToZip root pats false pre (.file n true c p)
        = if pats.any (patMatchB (arcName root (pre ++ [n]))) then .ok []
          else .ok [⟨arcName root (pre ++ [n]), c, p⟩]) := by
  constructor
  · intro hdot
    simp [addToZip, hdot]
  · intro hwf
    have hex := isExcluded_wf pats (arcName root (pre ++ [n])) hwf
    cases hany : pats.any (patMatchB (arcName root (pre ++ [n])))
    · simp [addToZip, hex, hany]
    · simp [addToZip, hex, hany]

/-- Witness for the amended C5: a dotfile is skipped under the flag with
no pattern present. -/
theorem C5_amended_dotfile_policy_witness :
    addToZip none [] true [] (.file ".env" true [] 0) = .ok [] :=
  (C5_amended_dotfile_policy none [] [] ".env" [] 0).1 (by decide)

/-- C6 counterexample: with an empty glob pattern in the list, the
exclusion decision is not invariant under permutation — one order
excludes the path, the permuted order raises an error. -/
theorem C6_counterexample_order_matters :
    isExcluded [XPat.glob "a", XPat.glob ""] "a" = .ok true ∧
    isExcluded [XPat.glob "", XPat.glob "a"] "a" = .error "empty pattern" := by
  decide

/-- C6 (amended): for pattern lists whose patterns all evaluate without
error (no empty glob pattern), the exclusion decision is exactly the
any-of decision, and it is invariant under any permutation or
duplication (any two lists with the same members decide alike). -/
theorem C6_amended_any_of_decision (fn : String) (l l1 l2 : List XPat)
    (hwf : ∀ p ∈ l, patWellFormed p = true)
    (hwf1 : ∀ p ∈ l1, patWellFormed p = true)
    (h12 : ∀ p ∈ l1, p ∈ l2) (h21 : ∀ p ∈ l2, p ∈ l1) :
    isExcluded l fn = .ok (l.any (patMatchB fn)) ∧
    isExcluded l1 fn = isExcluded l2 fn := by
  refine ⟨isExcluded_wf l fn hwf, ?_⟩
  have hwf2 : ∀ p ∈ l2, patWellFormed p = true := fun p hp => hwf1 p (h21 p hp)
  rw [isExcluded_wf l1 fn hwf1, isExcluded_wf l2 fn hwf2]
  have hany : l1.any (patMatchB fn) = l2.any (patMatchB fn) := by
    cases h1 : l1.any (patMatchB fn) with
    | true =>
      rcases List.any_eq_true.mp h1 with ⟨x, hx, hfx⟩
      exact (List.any_eq_true.mpr ⟨x, h12 x hx, hfx⟩).symm
    | false =>
      cases h2 : l2.any (patMatchB fn) with
      | false => rfl
      | true =>
        rcases List.any_eq_true.mp h2 with ⟨x, hx, hfx⟩
        have := List.any_eq_true.mpr ⟨x, h21 x hx, hfx⟩
        rw [h1] at this
        exact absurd this (by simp)
  rw [hany]

/-- Witness for the amended C6 on concrete lists related by permutation
and duplication. -/
theorem C6_amended_any_of_decision_witness :
    isExcluded [XPat.glob "a", XPat.glob "b"] "a"
      = .ok ([XPat.glob "a", XPat.glob "b"].any (patMatchB "a")) ∧
    isExcluded [XPat.glob "a", XPat.glob "b"] "a"
      = isExcluded [XPat.glob "b", XPat.glob "a", XPat.glob "a"] "a" :=
  C6_amended_any_of_decision "a" [XPat.glob "a", XPat.glob "b"]
    [XPat.glob "a", XPat.glob "b"]
    [XPat.glob "b", XPat.glob "a", XPat.glob "a"]
    (by decide) (by decide) (by decide) (by decide)

/-- C7: every included file is stored under
root_folder / (path relative to its top-level input's parent) — when no
root folder is set the name is just the relative path — and for the
concrete inputs A/X (a file X inside directory A) and B.txt with root
folder R the archive members are exactly R/X and R/B.txt. -/
theorem C7_in_archive_names (root : Option String) (pats : List XPat)
    (d : Bool) (pre : List String) (n : String) (c : List Nat) (p : Nat)
    (hwf : ∀ q ∈ pats, patWellFormed q = true)
    (hns : specSkips d pats (arcName root (pre ++ [n])) = false) :
    addToZip root pats d pre (.file n true c p)
      = .ok [⟨arcName root (pre ++ [n]), c, p⟩] ∧
    zipFilesEntries (some "R") [] false
        [FSEntry.file "X" true [1] 7, FSEntry.file "B.txt" true [2] 6]
      = .ok [⟨"R/X", [1], 7⟩, ⟨"R/B.txt", [2], 6⟩] := by
  constructor
  · rw [addToZip_spec root pats d pre (.file n true c p) hwf rfl]
    simp [includedFiles, hns]
  · decide

/-- Witness for C7 at a concrete nested file. -/
theorem C7_in_archive_names_witness :
    addToZip (some "R") [XPat.glob "*.pyc"] false ["A"]
        (.file "x.txt" true [9] 4)
      = .ok [⟨arcName (some "R") (["A"] ++ ["x.txt"]), [9], 4⟩] ∧
    zipFilesEntries (some "R") [] false
        [FSEntry.file "X" true [1] 7, FSEntry.file "B.txt" true [2] 6]
      = .ok [⟨"R/X", [1], 7⟩, ⟨"R/B.txt", [2], 6⟩] :=
  C7_in_archive_names (some "R") [XPat.glob "*.pyc"] false ["A"] "x.txt" [9] 4
    (by decide) (by decide)

/-- C8: a gitignore line that cannot be converted to a valid pattern
makes the whole invocation fail with the propagated error during
pattern-list construction — for every input file list the result is that
error, so the failure happens before any archive entry is written. -/
theorem C8_translation_error_aborts (keys : List String) (pfx : String)
    (lines : List String) (err : ZipError)
    (herr : getSingleGitignoreExcludes keys pfx lines = .error err)
    (root : Option String) (explicit contents : List String) (vcs : Bool)
    (d : Bool) (files : List FSEntry) :
    zipFilesRun keys root explicit contents vcs [(pfx, lines)] true d files
      = .error err := by
  simp only [zipFilesRun, getGitignoreExcludes, herr, if_true]

/-- Witness for C8: a malformed bracket range in a gitignore line aborts
a concrete invocation. -/
theorem C8_translation_error_aborts_witness :
    zipFilesRun testKeys none [] [] false [("root", ["f[z-a].pyc"])] true false
        [.file "x.txt" true [] 0]
      = .error (.patternCompileError "f[z-a].pyc") :=
  C8_translation_error_aborts testKeys "root" ["f[z-a].pyc"]
    (.patternCompileError "f[z-a].pyc") (by decide) none [] [] false false
    [.file "x.txt" true [] 0]

/-- C9: a traversed path that is neither a regular file nor a directory
produces no archive entry and raises no error, and the build continues
with the remaining entries exactly as if the path were absent. -/
theorem C9_neither_file_nor_dir_skipped (root : Option String)
    (pats : List XPat) (d : Bool) (pre : List String) (n : String)
    (xs ys : List FSEntry) :
    addToZip root pats d pre (.other n) = .ok [] ∧
    addEntries root pats d pre (xs ++ FSEntry.other n :: ys)
      = addEntries root pats d pre (xs ++ ys) := by
  refine ⟨rfl, ?_⟩
  induction xs with
  | nil =>
    simp only [List.nil_append, addEntries]
    cases h : addEntries root pats d pre ys <;> simp [addToZip, h]
  | cons e xs ih =>
    simp only [List.cons_append, addEntries, List.append_eq]
    rw [ih]

/-- C10: for the single-directory entry point, with neither an explicit
root folder nor the auto-root flag the root folder defaults to the input
directory's base name, so every archive member path begins with that
name; the output-file stem is used only when no explicit root folder is
given (an explicit root folder always wins). -/
theorem C10_zip_folder_default_root (outfile folder : String) (r : String)
    (a : Bool) (exclude : List XPat) (d : Bool) (children : List FSEntry)
    (ms : List ZipMember)
    (hrun : zipFolderEntries none false outfile folder exclude d children
      = .ok ms) :
    zipFolderRootFolder none false outfile folder = lastComponent folder ∧
    zipFolderRootFolder (some r) a outfile folder = r ∧
    zipFolderRootFolder none true outfile folder
      = pyStem (lastComponent outfile) ∧
    ∀ m ∈ ms, ∃ rest, m.arcname = lastComponent folder ++ "/" ++ rest := by
  refine ⟨rfl, rfl, rfl, ?_⟩
  have hrun' : addEntries (some (lastComponent folder)) exclude d [] children
      = .ok ms := hrun
  exact addEntries_root_prefix (lastComponent folder) exclude d [] children ms
    hrun'

/-- Witness for C10 at a concrete folder. -/
theorem C10_zip_folder_default_root_witness :
    zipFolderRootFolder none false "out/archive.zip" "p/F"
      = lastComponent "p/F" ∧
    zipFolderRootFolder (some "R") false "out/archive.zip" "p/F" = "R" ∧
    zipFolderRootFolder none true "out/archive.zip" "p/F"
      = pyStem (lastComponent "out/archive.zip") ∧
    ∀ m ∈ [ZipMember.mk "F/x" [] 0],
      ∃ rest, m.arcname = lastComponent "p/F" ++ "/" ++ rest :=
  C10_zip_folder_default_root "out/archive.zip" "p/F" "R" false [] false
    [.file "x" true [] 0] [⟨"F/x", [], 0⟩] (by decide)

end ZipFilesModel
